import Mathlib

/-!
# Go-TTLSort: a shallow embedding of `ttlsort.go`

Go `int` values are modelled as `Int`; the only arithmetic the program performs on
caller-supplied values is the codec's `+ 100` / `- 100`, which is wrapped to 64 bits.
Loop counters and lengths are `Nat`.  A run of a function that can panic, block on a
channel receive, or call `log.Fatal` is an `Except Fault`.
-/

namespace TTLSort

/-! ## Outcomes other than a normal return -/

deriving instance DecidableEq for Except

/-- Ways a Go function can fail to return normally. `outOfFuel` belongs to the
embedding only: loops are unrolled with an explicit iteration budget. -/
inductive Fault where
  | panic
  | blocked
  | fatal
  | outOfFuel
deriving DecidableEq, Repr

/-! ## Identifier codec (`fromTTLtoID`, `fromIDtoTTL`) -/

/-- Two's-complement wrap-around of a 64-bit Go `int`. -/
def wrapInt (x : Int) : Int := (x + 2 ^ 63) % 2 ^ 64 - 2 ^ 63

/-- Source: `func fromTTLtoID(ttl int) int { return ttl + 100 }`. -/
def fromTTLtoID (ttl : Int) : Int := wrapInt (ttl + 100)

/-- Source: `func fromIDtoTTL(id int) int { return id - 100 }`. -/
def fromIDtoTTL (id : Int) : Int := wrapInt (id - 100)

/-! ## `findMax` -/

/-- Source: `findMax`; the `range` loop as a left fold carrying `currentMax`. -/
def findMaxFrom (currentMax : Int) : List Int → Int
  | [] => currentMax
  | val :: rest => findMaxFrom (if val > currentMax then val else currentMax) rest

/-- Source: `findMax`, with `currentMax := 0` before the loop. -/
def findMax (slice : List Int) : Int := findMaxFrom 0 slice

/-! ## `isSorted` -/

/-- Bounds-checked read `arr[i]`: an index outside the sequence is a run-time panic. -/
def indexInt (arr : List Int) (i : Nat) : Except Fault Int :=
  match arr[i]? with
  | some v => .ok v
  | none => .error .panic

/-- Source: the loop of `isSorted`, `for i := 0; i < len(arr)-1; i++`, from counter `i`
with `fuel` iterations left in the budget. The guard compares Go `int`s, so
`len(arr)-1` is `-1` for the empty sequence. -/
def isSortedLoop (arr : List Int) : Nat → Nat → Except Fault Bool
  | 0, i => if (i : Int) < (arr.length : Int) - 1 then .error .outOfFuel else .ok true
  | fuel + 1, i =>
    if (i : Int) < (arr.length : Int) - 1 then
      match indexInt arr i, indexInt arr (i + 1) with
      | .ok a, .ok b => if a > b then .ok false else isSortedLoop arr fuel (i + 1)
      | .error e, _ => .error e
      | _, .error e => .error e
    else .ok true

/-- Source: `isSorted`. -/
def isSorted (arr : List Int) : Except Fault Bool := isSortedLoop arr arr.length 0

/-! ## Slices over an explicit backing array -/

/-- A Go slice header: a view of `len` elements (capacity `cap`) starting at `off`
in a backing array that is passed around explicitly. -/
structure Slice where
  off : Nat
  len : Nat
  cap : Nat
deriving DecidableEq, Repr

/-- The read `s[j]`; panics unless `0 <= j < len(s)`. -/
def Slice.index (m : List Int) (s : Slice) (j : Nat) : Except Fault Int :=
  if j < s.len then indexInt m (s.off + j) else .error .panic

/-- The slice expression `s[i:]`; panics unless `i <= len(s)`. -/
def Slice.sliceFrom (s : Slice) (i : Nat) : Except Fault Slice :=
  if i ≤ s.len then .ok ⟨s.off + i, s.len - i, s.cap - i⟩ else .error .panic

/-- The slice expression `s[:k]` for a Go `int` `k`; panics unless `0 <= k <= cap(s)`. -/
def Slice.sliceTo (s : Slice) (k : Int) : Except Fault Slice :=
  if 0 ≤ k ∧ k ≤ (s.cap : Int) then .ok ⟨s.off, k.toNat, s.cap⟩ else .error .panic

/-- The elements a slice shows: `len` cells of the backing array from `off`. -/
def Slice.elems (m : List Int) (s : Slice) : List Int := (m.drop s.off).take s.len

/-- Store `vals` into consecutive cells of the backing array, starting at `off`. -/
def writeAt (m : List Int) (off : Nat) : List Int → List Int
  | [] => m
  | v :: vs => writeAt (m.set off v) (off + 1) vs

/-- The Go builtin `copy(dst, src)`: `min(len(dst), len(src))` elements are moved, the
source being read before any cell is written (overlap is handled like `memmove`).
Returns the new backing array and the number of elements copied. -/
def copy (m : List Int) (dst src : Slice) : List Int × Nat :=
  let n := min dst.len src.len
  (writeAt m dst.off ((m.drop src.off).take n), n)

/-- Source: `remove`:
`copy(slice[i:], slice[i+1:]); return slice[:len(slice)-1]`. -/
def remove (m : List Int) (slice : Slice) (i : Nat) : Except Fault (List Int × Slice) := do
  let dst ← slice.sliceFrom i
  let src ← slice.sliceFrom (i + 1)
  let m1 := (copy m dst src).1
  let r ← slice.sliceTo ((slice.len : Int) - 1)
  pure (m1, r)

/-! ## `performSort`: the collection loop -/

/-- Source: `type echoReply struct`. `From` holds the text `From.String()` of the
responder address, which is all `performSort` looks at. -/
structure echoReply where
  OriginalTTL : Int
  From : String
deriving DecidableEq, Repr

/-- Source: the debug loop of `performSort`,
`for j := 0; j < len(trackArr); j++ { if id == trackArr[j] { trackArr = remove(trackArr, j) } }`.
The guard re-reads `len(trackArr)` on every iteration. -/
def trackLoop (id : Int) : Nat → List Int → Slice → Nat → Except Fault (List Int × Slice)
  | 0, m, trackArr, j =>
    if j < trackArr.len then .error .outOfFuel else .ok (m, trackArr)
  | fuel + 1, m, trackArr, j =>
    if j < trackArr.len then
      match trackArr.index m j with
      | .error e => .error e
      | .ok v =>
        if id = v then
          match remove m trackArr j with
          | .error e => .error e
          | .ok (m1, t1) => trackLoop id fuel m1 t1 (j + 1)
        else trackLoop id fuel m trackArr (j + 1)
    else .ok (m, trackArr)

/-- The local variables of `performSort` that change in the collection loop, together
with the backing array that `toSort` and `trackArr` share (`trackArr := toSort` copies
the slice header only). -/
structure SortVars where
  mem : List Int
  trackArr : Slice
  sorted : List Int
  hopsToTarget : Int
deriving DecidableEq, Repr

/-- Source: the collection loop of `performSort`, `for i := 0; i < len(toSort); i++`.
`chan` is what is still to be received from `sortedChan`, in arrival order; a receive
from a channel on which nothing more arrives blocks for ever. -/
def collectLoop (targetAddr : String) (toSort : Slice) :
    Nat → Nat → List echoReply → SortVars → Except Fault SortVars
  | 0, i, _, st => if i < toSort.len then .error .outOfFuel else .ok st
  | fuel + 1, i, chan, st =>
    if i < toSort.len then
      match chan with
      | [] => .error .blocked
      | reply :: rest =>
        let id := reply.OriginalTTL
        let sorted := st.sorted ++ [id]
        let isOriginalDst : Bool := targetAddr == reply.From
        let hopsToTarget := if isOriginalDst then reply.OriginalTTL else st.hopsToTarget
        match trackLoop id st.trackArr.len st.mem st.trackArr 0 with
        | .error e => .error e
        | .ok (m1, t1) =>
          collectLoop targetAddr toSort fuel (i + 1) rest
            { mem := m1, trackArr := t1, sorted := sorted, hopsToTarget := hopsToTarget }
    else .ok st

/-- Source: `performSort` from `sortedChan := ...` on, over an explicit backing array:
`trackArr := toSort`, `sorted := []int{}`, `hopsToTarget := -1`, then the collection
loop. The result holds the returned pair and the final backing array. -/
def performSortOn (targetAddr : String) (mem : List Int) (toSort : Slice)
    (chan : List echoReply) : Except Fault SortVars :=
  collectLoop targetAddr toSort toSort.len 0 chan
    { mem := mem, trackArr := toSort, sorted := [], hopsToTarget := -1 }

/-- A call `performSort(targetAddr, toSort)` whose argument shows the elements `toSort`:
the backing array is the window the slice covers (cells outside it are never
addressed by the function). -/
def performSortRun (targetAddr : String) (toSort : List Int) (chan : List echoReply) :
    Except Fault SortVars :=
  performSortOn targetAddr toSort ⟨0, toSort.length, toSort.length⟩ chan

/-- Source: `performSort`, the returned pair `(sorted, hopsToTarget)`. -/
def performSort (targetAddr : String) (toSort : List Int) (chan : List echoReply) :
    Except Fault (List Int × Int) :=
  match performSortRun targetAddr toSort chan with
  | .error e => .error e
  | .ok st => .ok (st.sorted, st.hopsToTarget)

/-- The elements of the caller's slice once `performSort` has returned. -/
def callerElemsAfter (targetAddr : String) (toSort : List Int) (chan : List echoReply) :
    Except Fault (List Int) :=
  match performSortRun targetAddr toSort chan with
  | .error e => .error e
  | .ok st => .ok (Slice.elems st.mem ⟨0, toSort.length, toSort.length⟩)

/-! ## `sendPing`: the probe on the wire -/

/-- The Go conversion `uint16(x)` of an `int`. -/
def toUint16 (x : Int) : Nat := (x % 65536).toNat

/-- The payload of `sendPing`, the thirteen bytes of its fixed marker text. -/
def pingData : List Nat := [100, 111, 110, 39, 116, 32, 109, 105, 110, 100, 32, 109, 101]

/-- The ICMP echo request `sendPing` writes for `ttl`: type 8, code 0, two checksum
bytes, then the body of `icmp.Echo`, whose `ID: fromTTLtoID(ttl)` and `Seq` (left zero)
are 16-bit big-endian fields, then `Data`. The checksum, which the ICMP package fills
in, is left as the parameters `c0 c1`. -/
def sendPingPacket (c0 c1 : Nat) (ttl : Int) : List Nat :=
  [8, 0, c0, c1,
   toUint16 (fromTTLtoID ttl) / 256, toUint16 (fromTTLtoID ttl) % 256,
   toUint16 0 / 256, toUint16 0 % 256] ++ pingData

/-- The data of a Time Exceeded message that quotes, after the IP header `ipHeader`,
the first `quoted` bytes of the datagram that expired. -/
def timeExceededData (ipHeader : List Nat) (quoted : Nat) (probe : List Nat) : List Nat :=
  ipHeader ++ probe.take quoted

/-! ## `listenAndSort` -/

/-- Bounds-checked read of one byte of a buffer. -/
def indexByte (b : List Nat) (i : Nat) : Except Fault Nat :=
  match b[i]? with
  | some v => .ok v
  | none => .error .panic

/-- Source: the `ipv4.ICMPTypeTimeExceeded` case of `listenAndSort`:
`id := rawbody[25]`, a single byte, then `fromIDtoTTL(int(id))`. -/
def timeExceededTTL (rawbody : List Nat) : Except Fault Int :=
  match indexByte rawbody 25 with
  | .error e => .error e
  | .ok id => .ok (fromIDtoTTL (id : Int))

/-- Source: the `ipv4.ICMPTypeEchoReply` case of `listenAndSort`:
`id := rm.Body.(*icmp.Echo).ID`, the whole identifier, then `fromIDtoTTL(int(id))`. -/
def echoReplyTTL (id : Int) : Int := fromIDtoTTL id

/-- The error of a `conn.ReadFrom` call, as far as `listenAndSort` tells errors apart. -/
inductive ReadErr where
  | timeout
  | other
deriving DecidableEq, Repr

/-- What one `conn.ReadFrom(readBuffer)` call gives: the bytes `readBuffer[:n]`, the
text of `peer`, and `err`. -/
structure ReadResult where
  bytes : List Nat
  peer : String
  err : Option ReadErr
deriving DecidableEq, Repr

/-- What `listenAndSort` uses of a parsed `icmp.Message`: its type with the field of
the body it reads. -/
inductive IcmpMessage where
  | timeExceeded (data : List Nat)
  | echoReply (id : Int)
  | unknown
deriving DecidableEq, Repr

/-- The lines `listenAndSort` logs (which line, and for which peer). -/
inductive LogLine where
  | failedToRead
  | timeExceeded (peer : String)
  | echoReply (peer : String)
  | fatalParse
  | fatalUnknown
deriving DecidableEq, Repr

/-- The effects of a `listenAndSort` run: the events sent on `replyChan`, in order, the
log, and how the run ended (`none` while running, `some (.ok ())` for a normal return). -/
structure ListenTrace where
  sent : List echoReply
  logs : List LogLine
  ended : Option (Except Fault Unit)
deriving DecidableEq, Repr

/-- Source: the loop of `listenAndSort`, `for i := 0; i < numExpected; i++`. `parse`
stands for `icmp.ParseMessage(1, ·)` (`none` when it returns an error) and `reads i` for
the result of the `ReadFrom` call of iteration `i`. After the `err != nil` block, which
only logs a timeout, control always reaches the parse. `replyChan` has capacity
`numExpected`, so a send never blocks. -/
def listenLoop (parse : List Nat → Option IcmpMessage) (numExpected : Nat)
    (reads : Nat → ReadResult) : Nat → Nat → ListenTrace → ListenTrace
  | 0, i, tr =>
    if i < numExpected then { tr with ended := some (.error .outOfFuel) }
    else { tr with ended := some (.ok ()) }
  | fuel + 1, i, tr =>
    if i < numExpected then
      let r := reads i
      let logs1 := if r.err = some ReadErr.timeout then tr.logs ++ [LogLine.failedToRead]
        else tr.logs
      match parse r.bytes with
      | none => { tr with logs := logs1 ++ [LogLine.fatalParse], ended := some (.error .fatal) }
      | some (IcmpMessage.timeExceeded rawbody) =>
        match timeExceededTTL rawbody with
        | .error e => { tr with logs := logs1, ended := some (.error e) }
        | .ok ttl =>
          listenLoop parse numExpected reads fuel (i + 1)
            { tr with logs := logs1 ++ [LogLine.timeExceeded r.peer],
                      sent := tr.sent ++ [{ OriginalTTL := ttl, From := r.peer }] }
      | some (IcmpMessage.echoReply id) =>
        listenLoop parse numExpected reads fuel (i + 1)
          { tr with logs := logs1 ++ [LogLine.echoReply r.peer],
                    sent := tr.sent ++ [{ OriginalTTL := echoReplyTTL id, From := r.peer }] }
      | some IcmpMessage.unknown =>
        { tr with logs := logs1 ++ [LogLine.fatalUnknown], ended := some (.error .fatal) }
    else { tr with ended := some (.ok ()) }

/-- Source: `listenAndSort`. -/
def listenAndSort (parse : List Nat → Option IcmpMessage) (numExpected : Nat)
    (reads : Nat → ReadResult) : ListenTrace :=
  listenLoop parse numExpected reads numExpected 0 { sent := [], logs := [], ended := none }

/-- The behaviour of `icmp.ParseMessage(1, b)` of the ICMP package the program
imports, as far as `listenAndSort` can see it. Fewer than four bytes is "message too
short"; `b[0]` is the type. The types that have a body parser (0, 3, 8, 11, 12, 42, 43)
need four more bytes. The identifier of an echo reply (type 0) is the big-endian pair
`b[4] b[5]`. The data of a time exceeded (type 11) is what follows the four unused
bytes; when that is at least 136 bytes long it can end in an extension structure, and
the package keeps only a leading part of it, whose length `extCut` stands for. -/
def parseMessage (extCut : List Nat → Nat) (b : List Nat) : Option IcmpMessage :=
  match b with
  | t :: _ :: _ :: _ :: body =>
    if t ∈ [0, 3, 8, 11, 12, 42, 43] ∧ body.length < 4 then none
    else if t = 0 then
      match body with
      | hi :: lo :: _ => some (.echoReply ((256 * hi + lo : Nat) : Int))
      | _ => none
    else if t = 11 then
      some (.timeExceeded
        (if (body.drop 4).length < 136 then body.drop 4
         else (body.drop 4).take (extCut (body.drop 4))))
    else some .unknown
  | _ => none

/-! ## `main`: the convergence loop -/

/-- How the loop of `main` was left. The program keeps no such variable; the tag
records which exit was taken. -/
inductive LoopState where
  | Converged
  | RangeConflict
  | IterationsExhausted
deriving DecidableEq, Repr

/-- The variables of `main` after its loop, with the number of `performSort` calls made
and the exit taken. -/
structure MainResult where
  toSort : List Int
  hopsToTarget : Int
  isPerfectlySorted : Bool
  rounds : Nat
  state : LoopState
deriving DecidableEq, Repr

/-- Source: the loop of `main`, `for i := 0; i < maxNumIters; i++`, entered at counter
`i` with working sequence `toSort` and `isPerfectlySorted = false`. `roundAt i` is what
the `performSort` call of iteration `i` returns. The sleep has no effect on the state. -/
def mainLoop (maxVal : Int) (maxNumIters : Int) (roundAt : Nat → List Int × Int) :
    Nat → Nat → List Int → Int → Except Fault MainResult
  | 0, i, toSort, hopsToTarget =>
    if (i : Int) < maxNumIters then .error .outOfFuel
    else .ok { toSort := toSort, hopsToTarget := hopsToTarget, isPerfectlySorted := false,
               rounds := i, state := .IterationsExhausted }
  | fuel + 1, i, toSort, hopsToTarget =>
    if (i : Int) < maxNumIters then
      let toSort1 := (roundAt i).1
      let hops1 := (roundAt i).2
      if hops1 ≥ 0 ∧ maxVal > hops1 then
        .ok { toSort := toSort1, hopsToTarget := hops1, isPerfectlySorted := false,
              rounds := i + 1, state := .RangeConflict }
      else
        match isSorted toSort1 with
        | .error e => .error e
        | .ok true =>
          .ok { toSort := toSort1, hopsToTarget := hops1, isPerfectlySorted := true,
                rounds := i + 1, state := .Converged }
        | .ok false => mainLoop maxVal maxNumIters roundAt fuel (i + 1) toSort1 hops1
    else .ok { toSort := toSort, hopsToTarget := hopsToTarget, isPerfectlySorted := false,
               rounds := i, state := .IterationsExhausted }

/-- Source: `main` from `maxVal := findMax(toSort)` to the end of the loop. -/
def mainRun (toSort : List Int) (maxNumIters : Int) (roundAt : Nat → List Int × Int) :
    Except Fault MainResult :=
  mainLoop (findMax toSort) maxNumIters roundAt maxNumIters.toNat 0 toSort (-1)

/-! ## Notions used in the statements -/

/-- Non-decreasing order, stated on neighbouring indices. -/
def NonDecreasing (arr : List Int) : Prop :=
  ∀ i (h : i + 1 < arr.length), arr[i] ≤ arr[i + 1]

/-- A slice lies inside its backing array. -/
def Slice.WF (m : List Int) (s : Slice) : Prop :=
  s.off + s.len ≤ m.length ∧ s.len ≤ s.cap

/-- The hop-distance after the events `events`, starting from `h0`: each event whose
origin is the destination overwrites it. -/
def hopsAfter (targetAddr : String) (h0 : Int) (events : List echoReply) : Int :=
  events.foldl (fun h e => if targetAddr == e.From then e.OriginalTTL else h) h0

/-- The working sequence and hop-distance `main` holds on entry to iteration `i`: the
initial ones before the first round, the result of round `i - 1` afterwards. -/
def entryVars (toSort : List Int) (hops : Int) (roundAt : Nat → List Int × Int)
    (i : Nat) : List Int × Int :=
  if i = 0 then (toSort, hops) else roundAt (i - 1)

/-- A listener run of two reads: a Time Exceeded for the probe of Value 5, then a
timeout with no bytes. -/
def timeoutRun (i : Nat) : ReadResult :=
  if i = 0 then
    { bytes := [11, 0, 0, 0, 0, 0, 0, 0] ++
        timeExceededData (List.replicate 20 0) 8 (sendPingPacket 0 0 5),
      peer := "10.0.0.1", err := none }
  else { bytes := [], peer := "", err := some ReadErr.timeout }

/-! # Verification -/

/-! ## Codec -/

/-- On values that stay inside the 64-bit range the wrap-around is the identity. -/
theorem wrapInt_of_small (x : Int) (hlo : -(2 ^ 63) ≤ x) (hhi : x < 2 ^ 63) : wrapInt x = x := by
  unfold wrapInt
  omega

/-- C1: on the supported range the codec is mutually inverse: decoding the identifier
of a Value in 1..255 gives the Value back, and encoding the Value of an identifier in
101..355 gives the identifier back. -/
theorem codec_mutually_inverse :
    (∀ v : Int, 1 ≤ v → v ≤ 255 → fromIDtoTTL (fromTTLtoID v) = v) ∧
    (∀ i : Int, 101 ≤ i → i ≤ 355 → fromTTLtoID (fromIDtoTTL i) = i) := by
  constructor
  · intro v h1 h2
    unfold fromIDtoTTL fromTTLtoID wrapInt
    omega
  · intro i h1 h2
    unfold fromIDtoTTL fromTTLtoID wrapInt
    omega

/-! ## `isSorted` -/

theorem indexInt_of_lt (arr : List Int) (i : Nat) (h : i < arr.length) :
    indexInt arr i = .ok arr[i] := by
  simp [indexInt, List.getElem?_eq_getElem h]

/-- The loop of `isSorted`, started at `i` with enough budget for the remaining
neighbour pairs, returns, and returns `true` exactly when every pair from `i` on is in
order. -/
theorem isSortedLoop_spec (arr : List Int) :
    ∀ fuel i, arr.length ≤ fuel + i + 1 →
      ∃ b, isSortedLoop arr fuel i = .ok b ∧
        (b = true ↔ ∀ k (h : k + 1 < arr.length), i ≤ k → arr[k] ≤ arr[k + 1]) := by
  intro fuel
  induction fuel with
  | zero =>
    intro i hfuel
    refine ⟨true, ?_, ?_⟩
    · have hg : ¬ ((i : Int) < (arr.length : Int) - 1) := by omega
      simp [isSortedLoop, hg]
    · simp only [true_iff]
      intro k hk hik
      omega
  | succ fuel ih =>
    intro i hfuel
    by_cases hg : (i : Int) < (arr.length : Int) - 1
    · have hi1 : i + 1 < arr.length := by omega
      have hi0 : i < arr.length := by omega
      by_cases hgt : arr[i] > arr[i + 1]
      · refine ⟨false, ?_, ?_⟩
        · simp [isSortedLoop, hg, indexInt_of_lt, hi0, hi1, hgt]
        · simp only [Bool.false_eq_true, false_iff]
          intro hall
          have := hall i hi1 (Nat.le_refl i)
          omega
      · obtain ⟨b, hb, hiff⟩ := ih (i + 1) (by omega)
        refine ⟨b, ?_, ?_⟩
        · simp [isSortedLoop, hg, indexInt_of_lt, hi0, hi1, hgt, hb]
        · rw [hiff]
          constructor
          · intro hall k hk hik
            by_cases hki : k = i
            · subst hki
              omega
            · exact hall k hk (by omega)
          · intro hall k hk hik
            exact hall k hk (by omega)
    · refine ⟨true, ?_, ?_⟩
      · simp [isSortedLoop, hg]
      · simp only [true_iff]
        intro k hk hik
        omega

/-- The function `isSorted` returns for every sequence, without an out-of-range read,
and its result is `true` exactly for the non-decreasing sequences. -/
theorem isSorted_spec (arr : List Int) :
    ∃ b, isSorted arr = .ok b ∧ (b = true ↔ NonDecreasing arr) := by
  obtain ⟨b, hb, hiff⟩ := isSortedLoop_spec arr arr.length 0 (by omega)
  refine ⟨b, hb, ?_⟩
  rw [hiff]
  unfold NonDecreasing
  constructor
  · intro h k hk
    exact h k hk (Nat.zero_le k)
  · intro h k hk _
    exact h k hk

theorem isSorted_of_nonDecreasing (arr : List Int) (h : NonDecreasing arr) :
    isSorted arr = .ok true := by
  obtain ⟨b, hb, hiff⟩ := isSorted_spec arr
  rw [hb, hiff.2 h]

theorem isSorted_of_not_nonDecreasing (arr : List Int) (h : ¬ NonDecreasing arr) :
    isSorted arr = .ok false := by
  obtain ⟨b, hb, hiff⟩ := isSorted_spec arr
  cases b with
  | false => exact hb
  | true => exact absurd (hiff.1 rfl) h

theorem nonDecreasing_iff_isSorted (arr : List Int) :
    NonDecreasing arr ↔ isSorted arr = .ok true := by
  constructor
  · exact isSorted_of_nonDecreasing arr
  · intro h
    by_contra hn
    rw [isSorted_of_not_nonDecreasing arr hn] at h
    cases h

theorem not_nonDecreasing_of_isSorted (arr : List Int) (h : isSorted arr = .ok false) :
    ¬ NonDecreasing arr := by
  intro hn
  rw [isSorted_of_nonDecreasing arr hn] at h
  cases h

/-- C9: for every sequence, the empty and the one-element sequence included,
`isSorted` returns (no index outside the sequence is read, which would be a panic), and
it returns `true` if and only if `arr[i] <= arr[i+1]` for every `i` with `i+1 < len(arr)`;
equal neighbours do not make it false. -/
theorem isSorted_iff_nonDecreasing (arr : List Int) :
    ∃ b, isSorted arr = .ok b ∧
      (b = true ↔ ∀ i (h : i + 1 < arr.length), arr[i] ≤ arr[i + 1]) :=
  isSorted_spec arr

/-! ## The convergence loop of `main` -/

/-- One iteration that neither conflicts nor finds the sequence sorted goes on to the
next counter with the round's result. -/
theorem mainLoop_step (maxVal maxNumIters : Int) (roundAt : Nat → List Int × Int)
    (fuel i : Nat) (toSort : List Int) (hops : Int)
    (hi : (i : Int) < maxNumIters)
    (hconf : ¬ ((roundAt i).2 ≥ 0 ∧ maxVal > (roundAt i).2))
    (hsort : ¬ NonDecreasing (roundAt i).1) :
    mainLoop maxVal maxNumIters roundAt (fuel + 1) i toSort hops =
      mainLoop maxVal maxNumIters roundAt fuel (i + 1) (roundAt i).1 (roundAt i).2 := by
  simp only [mainLoop, hi, if_true, hconf, if_false, isSorted_of_not_nonDecreasing _ hsort]

/-- An iteration whose round reports a conflicting hop-distance leaves the loop at
once, whatever the order of its output. -/
theorem mainLoop_conflict (maxVal maxNumIters : Int) (roundAt : Nat → List Int × Int)
    (fuel i : Nat) (toSort : List Int) (hops : Int)
    (hi : (i : Int) < maxNumIters)
    (hconf : (roundAt i).2 ≥ 0 ∧ maxVal > (roundAt i).2) :
    mainLoop maxVal maxNumIters roundAt (fuel + 1) i toSort hops =
      .ok { toSort := (roundAt i).1, hopsToTarget := (roundAt i).2,
            isPerfectlySorted := false, rounds := i + 1, state := .RangeConflict } := by
  simp only [mainLoop, hi, if_true, hconf, and_self]

/-- An iteration without conflict whose output is sorted leaves the loop converged. -/
theorem mainLoop_converge (maxVal maxNumIters : Int) (roundAt : Nat → List Int × Int)
    (fuel i : Nat) (toSort : List Int) (hops : Int)
    (hi : (i : Int) < maxNumIters)
    (hconf : ¬ ((roundAt i).2 ≥ 0 ∧ maxVal > (roundAt i).2))
    (hsort : NonDecreasing (roundAt i).1) :
    mainLoop maxVal maxNumIters roundAt (fuel + 1) i toSort hops =
      .ok { toSort := (roundAt i).1, hopsToTarget := (roundAt i).2,
            isPerfectlySorted := true, rounds := i + 1, state := .Converged } := by
  simp only [mainLoop, hi, if_true, hconf, if_false, isSorted_of_nonDecreasing _ hsort]

/-- When the guard fails the loop ends with the variables it was entered with. -/
theorem mainLoop_exhausted (maxVal maxNumIters : Int) (roundAt : Nat → List Int × Int)
    (fuel i : Nat) (toSort : List Int) (hops : Int)
    (hi : ¬ ((i : Int) < maxNumIters)) :
    mainLoop maxVal maxNumIters roundAt fuel i toSort hops =
      .ok { toSort := toSort, hopsToTarget := hops,
            isPerfectlySorted := false, rounds := i, state := .IterationsExhausted } := by
  cases fuel <;> simp only [mainLoop, hi, if_false]

/-- After `d` rounds that neither conflict nor come out sorted the loop stands at
counter `d`, holding the result of the last of them. -/
theorem mainLoop_reach (maxVal maxNumIters : Int) (roundAt : Nat → List Int × Int)
    (toSort : List Int) (hops : Int) :
    ∀ d : Nat, (d : Int) ≤ maxNumIters →
      (∀ j, j < d → ¬ ((roundAt j).2 ≥ 0 ∧ maxVal > (roundAt j).2)) →
      (∀ j, j < d → ¬ NonDecreasing (roundAt j).1) →
      ∀ fuel, mainLoop maxVal maxNumIters roundAt (fuel + d) 0 toSort hops =
        mainLoop maxVal maxNumIters roundAt fuel d
          (entryVars toSort hops roundAt d).1 (entryVars toSort hops roundAt d).2 := by
  intro d
  induction d with
  | zero =>
    intro _ _ _ fuel
    simp [entryVars]
  | succ d ih =>
    intro hd hconf hsort fuel
    have h1 := ih (by omega) (fun j hj => hconf j (by omega)) (fun j hj => hsort j (by omega))
      (fuel + 1)
    have h2 : fuel + (d + 1) = fuel + 1 + d := by omega
    rw [h2, h1, mainLoop_step maxVal maxNumIters roundAt fuel d _ _ (by omega)
      (hconf d (by omega)) (hsort d (by omega))]
    simp [entryVars]

/-- C2: if no round up to round `k` (`1 <= k <= max rounds`) triggers the range conflict
and round `k` is the first whose output is non-decreasing, the loop of `main` performs
exactly `k` rounds and ends converged (`isPerfectlySorted = true`) with the output of
round `k` as its final sequence. Round `j` (counted from 1) is `roundAt (j - 1)`. -/
theorem main_converges_at_first_sorted_round (toSort : List Int) (maxNumIters : Int)
    (roundAt : Nat → List Int × Int) (k : Nat)
    (hk1 : 1 ≤ k) (hk : (k : Int) ≤ maxNumIters)
    (hconf : ∀ j, j < k → ¬ (0 ≤ (roundAt j).2 ∧ (roundAt j).2 < findMax toSort))
    (hfirst : ∀ j, j + 1 < k → ¬ NonDecreasing (roundAt j).1)
    (hsorted : NonDecreasing (roundAt (k - 1)).1) :
    mainRun toSort maxNumIters roundAt =
      .ok { toSort := (roundAt (k - 1)).1, hopsToTarget := (roundAt (k - 1)).2,
            isPerfectlySorted := true, rounds := k, state := .Converged } := by
  unfold mainRun
  have hfuel : maxNumIters.toNat = (maxNumIters.toNat - k) + 1 + (k - 1) := by omega
  rw [hfuel, mainLoop_reach (findMax toSort) maxNumIters roundAt toSort (-1) (k - 1) (by omega)
    (fun j hj => hconf j (by omega)) (fun j hj => hfirst j (by omega)),
    mainLoop_converge (findMax toSort) maxNumIters roundAt _ (k - 1) _ _ (by omega)
      (hconf (k - 1) (by omega)) hsorted]
  have hk' : k - 1 + 1 = k := by omega
  rw [hk']

/-- C3: for `max rounds = n >= 0`, if no round's output is non-decreasing and no round
triggers the range conflict, the loop of `main` performs exactly `n` rounds and ends
with the iteration budget exhausted (`isPerfectlySorted = false`); its final sequence is
the output of the last round, or the initial input when `n = 0`. -/
theorem main_exhausts_iterations (toSort : List Int) (maxNumIters : Int)
    (roundAt : Nat → List Int × Int)
    (hn : 0 ≤ maxNumIters)
    (hconf : ∀ j : Nat, (j : Int) < maxNumIters →
      ¬ (0 ≤ (roundAt j).2 ∧ (roundAt j).2 < findMax toSort))
    (hsort : ∀ j : Nat, (j : Int) < maxNumIters → ¬ NonDecreasing (roundAt j).1) :
    mainRun toSort maxNumIters roundAt =
      .ok { toSort := if maxNumIters = 0 then toSort
                      else (roundAt (maxNumIters.toNat - 1)).1,
            hopsToTarget := if maxNumIters = 0 then -1
                            else (roundAt (maxNumIters.toNat - 1)).2,
            isPerfectlySorted := false, rounds := maxNumIters.toNat,
            state := .IterationsExhausted } := by
  unfold mainRun
  have hfuel : maxNumIters.toNat = 0 + maxNumIters.toNat := by omega
  rw [hfuel, mainLoop_reach (findMax toSort) maxNumIters roundAt toSort (-1) maxNumIters.toNat
    (by omega) (fun j hj => hconf j (by omega)) (fun j hj => hsort j (by omega)),
    mainLoop_exhausted _ _ _ _ _ _ _ (by omega)]
  by_cases h0 : maxNumIters = 0
  · subst h0
    simp [entryVars]
  · have hne : maxNumIters.toNat ≠ 0 := by omega
    simp [entryVars, h0, hne]

/-- The fold of `findMax` never falls below the value it starts from. -/
theorem findMaxFrom_ge_init : ∀ (l : List Int) (c : Int), c ≤ findMaxFrom c l := by
  intro l
  induction l with
  | nil => intro c; exact Int.le_refl c
  | cons x xs ih =>
    intro c
    simp only [findMaxFrom]
    split
    · exact Int.le_trans (by omega) (ih x)
    · exact ih c

/-- The fold of `findMax` is at least every element it has scanned. -/
theorem findMaxFrom_ge_mem : ∀ (l : List Int) (c v : Int), v ∈ l → v ≤ findMaxFrom c l := by
  intro l
  induction l with
  | nil => intro c v hv; cases hv
  | cons x xs ih =>
    intro c v hv
    simp only [findMaxFrom]
    rcases List.mem_cons.1 hv with h | h
    · subst h
      split
      · exact findMaxFrom_ge_init xs v
      · exact Int.le_trans (by omega) (findMaxFrom_ge_init xs c)
    · exact ih _ v h

/-- The fold of `findMax` stays below any bound on the start value and the elements. -/
theorem findMaxFrom_le : ∀ (l : List Int) (c M : Int), c ≤ M → (∀ v ∈ l, v ≤ M) →
    findMaxFrom c l ≤ M := by
  intro l
  induction l with
  | nil => intro c M hc _; exact hc
  | cons x xs ih =>
    intro c M hc hall
    simp only [findMaxFrom]
    have hx : x ≤ M := hall x (List.mem_cons_self x xs)
    have hxs : ∀ v ∈ xs, v ≤ M := fun v hv => hall v (List.mem_cons_of_mem x hv)
    split
    · exact ih x M hx hxs
    · exact ih c M hc hxs

/-- Every element of the sequence is at most `findMax` of it. -/
theorem findMax_ge_mem (slice : List Int) (v : Int) (hv : v ∈ slice) : v ≤ findMax slice :=
  findMaxFrom_ge_mem slice 0 v hv

/-- The function `findMax` returns the largest Value of the sequence whenever that
Value is not negative (the scan starts from `currentMax := 0`). -/
theorem findMax_eq_largest (slice : List Int) (M : Int) (hM : M ∈ slice)
    (hmax : ∀ v ∈ slice, v ≤ M) (h0 : 0 ≤ M) : findMax slice = M :=
  Int.le_antisymm (findMaxFrom_le slice 0 M h0 hmax) (findMax_ge_mem slice M hM)

/-- C4: let `M` be the largest Value of the initial sequence. A round that is reached
(every earlier round neither conflicted nor came out sorted) and reports a hop-distance
`h` with `0 <= h < M` makes the loop of `main` stop on that round with a range
conflict: `findMax` has computed `maxVal = M`, no further round is performed and
success is not reported (`isPerfectlySorted = false`), whether or not the round's
output is sorted. The round counted `k + 1` is `roundAt k`. -/
theorem main_range_conflict_stops (toSort : List Int) (maxNumIters : Int)
    (roundAt : Nat → List Int × Int) (k : Nat) (M : Int)
    (hM : M ∈ toSort) (hmax : ∀ v ∈ toSort, v ≤ M)
    (hk : (k : Int) < maxNumIters)
    (hconf : ∀ j, j < k → ¬ (0 ≤ (roundAt j).2 ∧ (roundAt j).2 < M))
    (hsort : ∀ j, j < k → ¬ NonDecreasing (roundAt j).1)
    (hhop : 0 ≤ (roundAt k).2 ∧ (roundAt k).2 < M) :
    findMax toSort = M ∧
    mainRun toSort maxNumIters roundAt =
      .ok { toSort := (roundAt k).1, hopsToTarget := (roundAt k).2,
            isPerfectlySorted := false, rounds := k + 1, state := .RangeConflict } := by
  have hfm : findMax toSort = M := findMax_eq_largest toSort M hM hmax (by omega)
  refine ⟨hfm, ?_⟩
  unfold mainRun
  rw [hfm]
  have hfuel : maxNumIters.toNat = (maxNumIters.toNat - (k + 1)) + 1 + k := by omega
  rw [hfuel, mainLoop_reach M maxNumIters roundAt toSort (-1) k (by omega)
    (fun j hj => hconf j hj) (fun j hj => hsort j hj),
    mainLoop_conflict M maxNumIters roundAt _ k _ _ hk hhop]

/-- Two rounds, the first out of order and the second sorted: convergence on round 2. -/
theorem main_converges_at_first_sorted_round_witness :
    mainRun [50, 10, 90] 3 (fun i => if i = 0 then ([50, 10, 90], -1) else ([10, 50, 90], -1)) =
      .ok { toSort := [10, 50, 90], hopsToTarget := -1, isPerfectlySorted := true,
            rounds := 2, state := .Converged } :=
  main_converges_at_first_sorted_round [50, 10, 90] 3
    (fun i => if i = 0 then ([50, 10, 90], -1) else ([10, 50, 90], -1)) 2
    (by decide) (by decide)
    (fun j hj => by
      have hj' : j = 0 ∨ j = 1 := by omega
      rcases hj' with h | h <;> subst h <;> decide)
    (fun j hj => by
      have hj' : j = 0 := by omega
      subst hj'
      exact not_nonDecreasing_of_isSorted _ (by decide))
    ((nonDecreasing_iff_isSorted _).2 (by decide))

/-- Two rounds allowed, both out of order and without a destination reply: the budget
is used up. -/
theorem main_exhausts_iterations_witness :
    mainRun [3, 2] 2 (fun _ => ([3, 2], -1)) =
      .ok { toSort := [3, 2], hopsToTarget := -1, isPerfectlySorted := false,
            rounds := 2, state := .IterationsExhausted } :=
  main_exhausts_iterations [3, 2] 2 (fun _ => ([3, 2], -1)) (by decide)
    (fun _ _ => by dsimp only; decide)
    (fun _ _ => not_nonDecreasing_of_isSorted [3, 2] (by decide))

/-! ## `performSort` -/

theorem writeAt_length (vals : List Int) : ∀ (m : List Int) (off : Nat),
    (writeAt m off vals).length = m.length := by
  induction vals with
  | nil => intro m off; rfl
  | cons v vs ih => intro m off; simp [writeAt, ih]

/-- Inside `performSort`'s debug loop `remove` cannot panic: it returns the slice
shortened by one over a backing array of the same size. -/
theorem remove_ok (m : List Int) (t : Slice) (j : Nat) (hj : j < t.len) (hwf : t.WF m) :
    ∃ m1, remove m t j = .ok (m1, ⟨t.off, t.len - 1, t.cap⟩) ∧ m1.length = m.length := by
  obtain ⟨_, hcap⟩ := hwf
  have h1 : j ≤ t.len := by omega
  have h2 : j + 1 ≤ t.len := by omega
  have h3 : (0 : Int) ≤ (t.len : Int) - 1 ∧ (t.len : Int) - 1 ≤ (t.cap : Int) := by omega
  have h4 : ((t.len : Int) - 1).toNat = t.len - 1 := by omega
  refine ⟨(copy m ⟨t.off + j, t.len - j, t.cap - j⟩
    ⟨t.off + (j + 1), t.len - (j + 1), t.cap - (j + 1)⟩).1, ?_, ?_⟩
  · simp [remove, Slice.sliceFrom, Slice.sliceTo, h1, h2, h3, h4, bind, Except.bind, pure,
      Except.pure]
  · simp [copy, writeAt_length]

/-- The debug loop returns whenever its budget covers the elements not yet visited,
and leaves a shorter-or-equal slice over a backing array of the same size. -/
theorem trackLoop_ok (id : Int) : ∀ (fuel : Nat) (m : List Int) (t : Slice) (j : Nat),
    t.WF m → t.len ≤ fuel + j →
      ∃ m1 t1, trackLoop id fuel m t j = .ok (m1, t1) ∧ t1.WF m1 ∧
        m1.length = m.length ∧ t1.len ≤ t.len := by
  intro fuel
  induction fuel with
  | zero =>
    intro m t j hwf hfuel
    have hg : ¬ (j < t.len) := by omega
    exact ⟨m, t, by simp [trackLoop, hg], hwf, rfl, Nat.le_refl _⟩
  | succ fuel ih =>
    intro m t j hwf hfuel
    by_cases hg : j < t.len
    · have hlt : t.off + j < m.length := by have := hwf.1; omega
      have hidx : t.index m j = .ok m[t.off + j] := by
        simp [Slice.index, hg, indexInt_of_lt, hlt]
      by_cases hid : id = m[t.off + j]
      · obtain ⟨m1, hrem, hlen⟩ := remove_ok m t j hg hwf
        have hwf1 : Slice.WF m1 ⟨t.off, t.len - 1, t.cap⟩ := by
          constructor
          · have := hwf.1
            simp only [hlen]
            omega
          · have := hwf.2
            simp only
            omega
        obtain ⟨m2, t2, hrun, hwf2, hlen2, hle2⟩ :=
          ih m1 ⟨t.off, t.len - 1, t.cap⟩ (j + 1) hwf1 (by simp only; omega)
        refine ⟨m2, t2, ?_, hwf2, by rw [hlen2, hlen], ?_⟩
        · simp only [trackLoop, hg, if_true, hidx, hrem]
          rw [if_pos hid]
          exact hrun
        · simp only at hle2
          omega
      · obtain ⟨m2, t2, hrun, hwf2, hlen2, hle2⟩ := ih m t (j + 1) hwf (by omega)
        refine ⟨m2, t2, ?_, hwf2, hlen2, hle2⟩
        simp only [trackLoop, hg, if_true, hidx]
        rw [if_neg hid]
        exact hrun
    · exact ⟨m, t, by simp [trackLoop, hg], hwf, rfl, Nat.le_refl _⟩

/-- With enough events on the channel the collection loop returns: it has appended the
decoded Values of the next `len(toSort) - i` events in arrival order. -/
theorem collectLoop_ok (targetAddr : String) (toSort : Slice) :
    ∀ (fuel i : Nat) (chan : List echoReply) (st : SortVars),
      st.trackArr.WF st.mem → toSort.len ≤ fuel + i → toSort.len - i ≤ chan.length →
        ∃ st1, collectLoop targetAddr toSort fuel i chan st = .ok st1 ∧
          st1.sorted = st.sorted ++ (chan.take (toSort.len - i)).map (·.OriginalTTL) ∧
          st1.hopsToTarget =
            hopsAfter targetAddr st.hopsToTarget (chan.take (toSort.len - i)) ∧
          st1.mem.length = st.mem.length := by
  intro fuel
  induction fuel with
  | zero =>
    intro i chan st _ hfuel _
    have hg : ¬ (i < toSort.len) := by omega
    have h0 : toSort.len - i = 0 := by omega
    exact ⟨st, by simp [collectLoop, hg], by simp [h0], by simp [h0, hopsAfter], rfl⟩
  | succ fuel ih =>
    intro i chan st hwf hfuel hchan
    by_cases hg : i < toSort.len
    · cases chan with
      | nil => simp at hchan; omega
      | cons reply rest =>
        obtain ⟨m1, t1, htrack, hwf1, hlen1, _⟩ :=
          trackLoop_ok reply.OriginalTTL st.trackArr.len st.mem st.trackArr 0 hwf (by omega)
        obtain ⟨st1, hrun, hsorted, hhops, hmem⟩ := ih (i + 1) rest
          { mem := m1, trackArr := t1, sorted := st.sorted ++ [reply.OriginalTTL],
            hopsToTarget := if (targetAddr == reply.From) = true then reply.OriginalTTL
              else st.hopsToTarget }
          hwf1 (by omega) (by simp at hchan; omega)
        have hsplit : toSort.len - i = (toSort.len - (i + 1)) + 1 := by omega
        refine ⟨st1, ?_, ?_, ?_, ?_⟩
        · simp only [collectLoop, hg, if_true, htrack]
          exact hrun
        · rw [hsorted, hsplit]
          simp
        · rw [hhops, hsplit]
          simp [hopsAfter]
        · rw [hmem]
          exact hlen1
    · have h0 : toSort.len - i = 0 := by omega
      exact ⟨st, by simp [collectLoop, hg], by simp [h0], by simp [h0, hopsAfter], rfl⟩

/-- With too few events on the channel the collection loop never returns: it blocks
on the receive that follows the last event. -/
theorem collectLoop_blocked (targetAddr : String) (toSort : Slice) :
    ∀ (fuel i : Nat) (chan : List echoReply) (st : SortVars),
      st.trackArr.WF st.mem → toSort.len ≤ fuel + i → chan.length < toSort.len - i →
        collectLoop targetAddr toSort fuel i chan st = .error .blocked := by
  intro fuel
  induction fuel with
  | zero =>
    intro i chan st _ hfuel hchan
    omega
  | succ fuel ih =>
    intro i chan st hwf hfuel hchan
    have hg : i < toSort.len := by omega
    cases chan with
    | nil => simp [collectLoop, hg]
    | cons reply rest =>
      obtain ⟨m1, t1, htrack, hwf1, _, _⟩ :=
        trackLoop_ok reply.OriginalTTL st.trackArr.len st.mem st.trackArr 0 hwf (by omega)
      simp only [collectLoop, hg, if_true, htrack]
      exact ih (i + 1) rest _ hwf1 (by omega) (by simp at hchan; omega)

/-- What `performSort` returns when at least `len(toSort)` events arrive: the decoded
Values of the first `len(toSort)` events in arrival order, and the hop-distance those
events leave. -/
theorem performSort_eq (targetAddr : String) (toSort : List Int) (chan : List echoReply)
    (h : toSort.length ≤ chan.length) :
    performSort targetAddr toSort chan =
      .ok ((chan.take toSort.length).map (·.OriginalTTL),
           hopsAfter targetAddr (-1) (chan.take toSort.length)) := by
  obtain ⟨st1, hrun, hsorted, hhops, _⟩ :=
    collectLoop_ok targetAddr ⟨0, toSort.length, toSort.length⟩ toSort.length 0 chan
      { mem := toSort, trackArr := ⟨0, toSort.length, toSort.length⟩, sorted := [],
        hopsToTarget := -1 }
      (by simp [Slice.WF]) (by simp) (by simpa using h)
  simp only [performSort, performSortRun, performSortOn, hrun]
  simp only [List.nil_append, Nat.sub_zero] at hsorted hhops
  rw [hsorted, hhops]

/-- When fewer than `len(toSort)` events arrive `performSort` does not return. -/
theorem performSort_blocked (targetAddr : String) (toSort : List Int) (chan : List echoReply)
    (h : chan.length < toSort.length) :
    performSort targetAddr toSort chan = .error .blocked := by
  have hrun := collectLoop_blocked targetAddr ⟨0, toSort.length, toSort.length⟩
    toSort.length 0 chan
    { mem := toSort, trackArr := ⟨0, toSort.length, toSort.length⟩, sorted := [],
      hopsToTarget := -1 }
    (by simp [Slice.WF]) (by simp) (by simpa using h)
  simp only [performSort, performSortRun, performSortOn, hrun]

theorem hopsAfter_cons (targetAddr : String) (h0 : Int) (x : echoReply)
    (xs : List echoReply) :
    hopsAfter targetAddr h0 (x :: xs) =
      hopsAfter targetAddr (if targetAddr == x.From then x.OriginalTTL else h0) xs := rfl

/-- A hop-distance is left untouched by events none of which comes from the
destination. -/
theorem hopsAfter_of_filter_nil (targetAddr : String) :
    ∀ (events : List echoReply) (h0 : Int),
      events.filter (fun r => decide (r.From = targetAddr)) = [] →
        hopsAfter targetAddr h0 events = h0 := by
  intro events
  induction events with
  | nil => intro h0 _; rfl
  | cons x xs ih =>
    intro h0 hf
    by_cases hx : x.From = targetAddr
    · simp [List.filter, hx] at hf
    · have hne : (targetAddr == x.From) = false := by
        simp only [beq_eq_false_iff_ne, ne_eq]
        exact fun h => hx h.symm
      simp only [List.filter, hx, decide_False] at hf
      rw [hopsAfter_cons, hne]
      exact ih h0 hf

/-- When exactly one event comes from the destination, its Value is the hop-distance. -/
theorem hopsAfter_of_filter_singleton (targetAddr : String) (e : echoReply) :
    ∀ (events : List echoReply) (h0 : Int),
      events.filter (fun r => decide (r.From = targetAddr)) = [e] →
        hopsAfter targetAddr h0 events = e.OriginalTTL := by
  intro events
  induction events with
  | nil => intro h0 hf; simp at hf
  | cons x xs ih =>
    intro h0 hf
    by_cases hx : x.From = targetAddr
    · simp only [List.filter, hx, decide_True, List.cons.injEq] at hf
      obtain ⟨hxe, hrest⟩ := hf
      have heq : (targetAddr == x.From) = true := by
        simp only [beq_iff_eq]
        exact hx.symm
      rw [hopsAfter_cons, heq, if_pos rfl,
        hopsAfter_of_filter_nil targetAddr xs x.OriginalTTL hrest, hxe]
    · have hne : (targetAddr == x.From) = false := by
        simp only [beq_eq_false_iff_ne, ne_eq]
        exact fun h => hx h.symm
      simp only [List.filter, hx, decide_False] at hf
      rw [hopsAfter_cons, hne]
      exact ih h0 hf

/-- C5: in a round that collects its `N = len(toSort)` reply events, if exactly one
collected event has an origin whose text equals the destination address,
`performSort` returns that event's decoded Value as the hop-distance; if no collected
event comes from the destination it returns the marker `-1`. -/
theorem performSort_hop_distance (targetAddr : String) (toSort : List Int)
    (chan : List echoReply) (hlen : toSort.length ≤ chan.length) :
    (∀ e, (chan.take toSort.length).filter (fun r => decide (r.From = targetAddr)) = [e] →
      performSort targetAddr toSort chan =
        .ok ((chan.take toSort.length).map (·.OriginalTTL), e.OriginalTTL)) ∧
    ((chan.take toSort.length).filter (fun r => decide (r.From = targetAddr)) = [] →
      performSort targetAddr toSort chan =
        .ok ((chan.take toSort.length).map (·.OriginalTTL), -1)) := by
  constructor
  · intro e he
    rw [performSort_eq targetAddr toSort chan hlen,
      hopsAfter_of_filter_singleton targetAddr e _ (-1) he]
  · intro hnil
    rw [performSort_eq targetAddr toSort chan hlen,
      hopsAfter_of_filter_nil targetAddr _ (-1) hnil]

/-- C6: for every input sequence and every stream of reply events, `performSort`
returns as soon as `N = len(toSort)` events have arrived, and whatever it returns is
exactly the decoded Values of the collected events in arrival order: its length does
not exceed `N`, and each entry was carried by a reply event. -/
theorem performSort_output_is_arrival_order (targetAddr : String) (toSort : List Int)
    (chan : List echoReply) :
    (toSort.length ≤ chan.length →
      ∃ hops, performSort targetAddr toSort chan =
        .ok ((chan.take toSort.length).map (·.OriginalTTL), hops)) ∧
    (∀ sorted hops, performSort targetAddr toSort chan = .ok (sorted, hops) →
      sorted = (chan.take toSort.length).map (·.OriginalTTL) ∧
      sorted.length ≤ toSort.length ∧
      ∀ v ∈ sorted, ∃ e ∈ chan, e.OriginalTTL = v) := by
  constructor
  · intro hlen
    exact ⟨_, performSort_eq targetAddr toSort chan hlen⟩
  · intro sorted hops hret
    by_cases hlen : toSort.length ≤ chan.length
    · rw [performSort_eq targetAddr toSort chan hlen] at hret
      simp only [Except.ok.injEq, Prod.mk.injEq] at hret
      obtain ⟨hs, _⟩ := hret
      subst hs
      refine ⟨rfl, ?_, ?_⟩
      · simp
      · intro v hv
        simp only [List.mem_map] at hv
        obtain ⟨e, he, hev⟩ := hv
        exact ⟨e, List.mem_of_mem_take he, hev⟩
    · rw [performSort_blocked targetAddr toSort chan (by omega)] at hret
      cases hret

/-! ## Time Exceeded correlation -/

/-- The byte at offset 25 of a Time Exceeded body that quotes a probe after a 20-byte
IP header is the low byte of the probe's identifier field. -/
theorem timeExceededData_byte25 (ipHeader : List Nat) (quoted c0 c1 : Nat) (ttl : Int)
    (hip : ipHeader.length = 20) (hq : 8 ≤ quoted) :
    indexByte (timeExceededData ipHeader quoted (sendPingPacket c0 c1 ttl)) 25 =
      .ok (toUint16 (fromTTLtoID ttl) % 256) := by
  have h5 : 5 < quoted := by omega
  simp [indexByte, timeExceededData, sendPingPacket, List.getElem?_append_right, hip,
    List.getElem?_take, h5]

/-- For the Values whose identifier fits one byte the listener recovers the Value. -/
theorem timeExceeded_roundtrip_one_byte (ipHeader : List Nat) (quoted c0 c1 : Nat) (v : Int)
    (hip : ipHeader.length = 20) (hq : 8 ≤ quoted) (h1 : 1 ≤ v) (h2 : v ≤ 155) :
    timeExceededTTL (timeExceededData ipHeader quoted (sendPingPacket c0 c1 v)) = .ok v := by
  simp only [timeExceededTTL, timeExceededData_byte25 ipHeader quoted c0 c1 v hip hq]
  congr 1
  unfold fromIDtoTTL fromTTLtoID toUint16 wrapInt
  omega

/-- C7 (evaluation of the code where the claim fails): for a Value `v` with
`156 <= v <= 255` the identifier `v + 100` needs two bytes, and from the Time Exceeded
body that quotes the probe of `sendPing` after a 20-byte IP header the listener, which
reads the single byte at offset 25, recovers `v - 256` instead of `v`. -/
theorem timeExceeded_drops_high_byte (ipHeader : List Nat) (quoted c0 c1 : Nat) (v : Int)
    (hip : ipHeader.length = 20) (hq : 8 ≤ quoted) (h1 : 156 ≤ v) (h2 : v ≤ 255) :
    timeExceededTTL (timeExceededData ipHeader quoted (sendPingPacket c0 c1 v)) =
      .ok (v - 256) := by
  simp only [timeExceededTTL, timeExceededData_byte25 ipHeader quoted c0 c1 v hip hq]
  congr 1
  unfold fromIDtoTTL fromTTLtoID toUint16 wrapInt
  omega

/-- The Value 200, quoted after a header of twenty bytes, comes back as `-56`. -/
theorem timeExceeded_drops_high_byte_at_200 :
    timeExceededTTL (timeExceededData (List.replicate 20 0) 8 (sendPingPacket 0 0 200)) =
      .ok (200 - 256) :=
  timeExceeded_drops_high_byte (List.replicate 20 0) 8 0 0 200 (by decide) (by decide)
    (by decide) (by decide)

/-- Three probes, the third answered by the destination itself. -/
theorem performSort_hop_distance_witness :
    performSort "203.0.113.7" [50, 10, 90]
        [⟨10, "10.0.0.1"⟩, ⟨50, "10.0.0.2"⟩, ⟨90, "203.0.113.7"⟩] =
      .ok ([10, 50, 90], 90) :=
  (performSort_hop_distance "203.0.113.7" [50, 10, 90]
    [⟨10, "10.0.0.1"⟩, ⟨50, "10.0.0.2"⟩, ⟨90, "203.0.113.7"⟩] (by decide)).1
    ⟨90, "203.0.113.7"⟩ (by decide)

/-- Input `[10, 90, 50]`, whose largest Value 90 is neither first nor last. Round 1
comes back out of order without a reply from the destination; round 2 comes back
sorted with the destination seen at hop-distance 50, and the loop stops there with a
range conflict. Both round results are what `performSort` returns for the events
shown. -/
theorem main_range_conflict_stops_witness :
    performSort "203.0.113.7" [10, 90, 50]
        [⟨90, "10.0.0.3"⟩, ⟨10, "10.0.0.1"⟩, ⟨50, "10.0.0.2"⟩] = .ok ([90, 10, 50], -1) ∧
    performSort "203.0.113.7" [90, 10, 50]
        [⟨10, "10.0.0.1"⟩, ⟨50, "203.0.113.7"⟩, ⟨90, "10.0.0.3"⟩] = .ok ([10, 50, 90], 50) ∧
    findMax [10, 90, 50] = 90 ∧
    mainRun [10, 90, 50] 3 (fun i => if i = 0 then ([90, 10, 50], -1) else ([10, 50, 90], 50)) =
      .ok { toSort := [10, 50, 90], hopsToTarget := 50, isPerfectlySorted := false,
            rounds := 2, state := .RangeConflict } :=
  ⟨by decide, by decide,
    main_range_conflict_stops [10, 90, 50] 3
      (fun i => if i = 0 then ([90, 10, 50], -1) else ([10, 50, 90], 50)) 1 90
      (by decide) (by decide) (by decide)
      (fun j hj => by
        have hj' : j = 0 := by omega
        subst hj'
        decide)
      (fun j hj => by
        have hj' : j = 0 := by omega
        subst hj'
        exact not_nonDecreasing_of_isSorted _ (by decide))
      (by decide)⟩

/-! ## The caller's slice -/

/-- C10 (evaluation of the code where the claim fails): for the input `[50, 10, 90]`
and replies arriving with Values 10, 50, 90, `performSort` returns `[10, 50, 90]`, and
the elements of the slice it was given, `[50, 10, 90]` before the call, are
`[90, 90, 90]` after it: `remove` has shifted them in place through `trackArr`. -/
theorem performSort_overwrites_caller_slice :
    callerElemsAfter "203.0.113.7" [50, 10, 90]
        [⟨10, "10.0.0.1"⟩, ⟨50, "10.0.0.2"⟩, ⟨90, "10.0.0.3"⟩] = .ok [90, 90, 90] ∧
    performSort "203.0.113.7" [50, 10, 90]
        [⟨10, "10.0.0.1"⟩, ⟨50, "10.0.0.2"⟩, ⟨90, "10.0.0.3"⟩] = .ok ([10, 50, 90], -1) := by
  constructor <;> decide

/-! ## Read timeouts -/

/-- C8 (as stated, refuted): in the listener run `timeoutRun` the second read times out;
`listenAndSort` ends in `log.Fatal`, which terminates the process, and `performSort`
for two Values, given the single event that was sent, does not return. -/
theorem timeout_is_fatal_and_round_does_not_return :
    (listenAndSort (parseMessage fun _ => 128) 2 timeoutRun).ended = some (.error .fatal) ∧
    (listenAndSort (parseMessage fun _ => 128) 2 timeoutRun).sent = [⟨5, "10.0.0.1"⟩] ∧
    performSort "203.0.113.7" [7, 5] (listenAndSort (parseMessage fun _ => 128) 2 timeoutRun).sent =
      .error .blocked := by
  refine ⟨?_, ?_, ?_⟩ <;> decide

/-- C8 (amended): whenever a read of `listenAndSort` returns a timeout error with zero
bytes, the function logs it and sends no event for that slot; and `performSort`
returns only after collecting exactly `N = len(toSort)` events, so that it never
returns with fewer than `N` Values (with fewer than `N` events it does not return).
`parse` is any parser that, like `icmp.ParseMessage`, rejects the empty message. -/
theorem timeout_logged_and_round_collects_all (parse : List Nat → Option IcmpMessage)
    (numExpected : Nat) (reads : Nat → ReadResult) (fuel i : Nat) (tr : ListenTrace)
    (hparse : parse [] = none) (hi : i < numExpected)
    (hbytes : (reads i).bytes = []) (herr : (reads i).err = some ReadErr.timeout) :
    ((listenLoop parse numExpected reads (fuel + 1) i tr).sent = tr.sent ∧
     (listenLoop parse numExpected reads (fuel + 1) i tr).logs.take (tr.logs.length + 1) =
        tr.logs ++ [LogLine.failedToRead]) ∧
    (∀ targetAddr toSort chan sorted hops,
      performSort targetAddr toSort chan = .ok (sorted, hops) →
        sorted.length = toSort.length) ∧
    (∀ targetAddr toSort chan, chan.length < toSort.length →
      performSort targetAddr toSort chan = .error .blocked) := by
  refine ⟨?_, ?_, ?_⟩
  · simp [listenLoop, hi, hbytes, herr, hparse, List.take_append_eq_append_take]
  · intro targetAddr toSort chan sorted hops hret
    by_cases hlen : toSort.length ≤ chan.length
    · rw [performSort_eq targetAddr toSort chan hlen] at hret
      simp only [Except.ok.injEq, Prod.mk.injEq] at hret
      rw [← hret.1]
      simp [hlen]
    · rw [performSort_blocked targetAddr toSort chan (by omega)] at hret
      cases hret
  · intro targetAddr toSort chan hlen
    exact performSort_blocked targetAddr toSort chan hlen

/-- The second read of `timeoutRun`, reached after one event has been sent. -/
theorem timeout_logged_and_round_collects_all_witness :
    (listenLoop (parseMessage fun _ => 128) 2 timeoutRun 1 1
        { sent := [⟨5, "10.0.0.1"⟩], logs := [LogLine.timeExceeded "10.0.0.1"],
          ended := none }).sent = [⟨5, "10.0.0.1"⟩] :=
  (timeout_logged_and_round_collects_all (parseMessage fun _ => 128) 2 timeoutRun 0 1
    { sent := [⟨5, "10.0.0.1"⟩], logs := [LogLine.timeExceeded "10.0.0.1"], ended := none }
    (by decide) (by decide) (by decide) (by decide)).1.1

end TTLSort
